import Mathlib

/- Shallow embedding of the turn-based combat engine of this repository
   (src/action_core.py, src/battle.py, src/character.py, src/item.py).

   Modelling conventions:
   * Python ints are modelled as `Int` (arbitrary precision, may go negative).
   * Python float arithmetic on the exact decimal values occurring here is
     modelled as `Rat`; the damage formula's real-valued exponentiation
     `2 ** (defense/attack)` is modelled with `Real` and `Real.rpow`.
   * Python's `int()` truncation toward zero is `ratTrunc` / `realTrunc`.
   * Randomness (`random.randint` variance and critical rolls) is passed in
     explicitly as stubbed parameters, as the spec's deterministic scenarios
     prescribe.
   * The CSV catalogs (`definitions/*.csv`) are data files outside `src/`;
     lookups (`Status.define`, `Action.define`, `Character.define`) are
     modelled as explicit record-valued lookup functions supplied as
     arguments, with the in-code default records available as constants.
   * In-place mutation of Python objects becomes explicit state passing:
     functions return the updated records.
   * Fallible code paths (Python exceptions such as ZeroDivisionError and
     the NameError reachable in `Burying.loop`) return `Option`/`none`. -/

/-- Python `int()` truncation toward zero on an exact rational value:
`Int.div` truncates toward zero and the reduced denominator is positive. -/
def ratTrunc (q : ℚ) : ℤ := Int.tdiv q.num (q.den : ℤ)

/-- Python `int()` truncation toward zero on a real value. -/
noncomputable def realTrunc (x : ℝ) : ℤ := if 0 ≤ x then ⌊x⌋ else ⌈x⌉

/- ----------------------------------------------------------------
   Status (action_core.py, class Status)
   ---------------------------------------------------------------- -/

/-- The per-status catalog record read by `Status.define` from
`definitions/statuses.csv` (a data file outside `src/`). -/
structure StatusDef where
  starting_stacks : ℤ
  max_stacks : ℤ
  applied_duration : ℤ
  max_duration : ℤ
  stat_modifiers : List (String × ℚ)
deriving DecidableEq

/-- The defaults `Status.__init__` installs for statuses missing from the
catalog: stack 1, max_stacks 1, duration 3, applied_duration 3,
max_duration 3, no stat modifiers. -/
def defaultStatusDef : StatusDef :=
  { starting_stacks := 1, max_stacks := 1, applied_duration := 3,
    max_duration := 3, stat_modifiers := [] }

/-- A `Status` instance (action_core.py lines 46-101).  The `patient`
back-reference is a transient annotation and is not part of the state. -/
structure Status where
  name : String
  stack : ℤ
  starting_stacks : ℤ
  max_stacks : ℤ
  duration : ℤ
  applied_duration : ℤ
  max_duration : ℤ
  stat_modifiers : List (String × ℚ)
deriving DecidableEq

/-- `Status.__init__` followed by `define`: copy the catalog record and set
`stack := starting_stacks`, `duration := applied_duration`
(action_core.py lines 100-101). -/
def Status.mk_from_def (n : String) (d : StatusDef) : Status :=
  { name := n, stack := d.starting_stacks, starting_stacks := d.starting_stacks,
    max_stacks := d.max_stacks, duration := d.applied_duration,
    applied_duration := d.applied_duration, max_duration := d.max_duration,
    stat_modifiers := d.stat_modifiers }

/-- `Status.reduce_duration` (action_core.py lines 129-139): decrement
duration; at exactly 0 decrement stack, and unless the stack hit exactly 0
(`end()` is a no-op hook for the base class) reset duration to
`applied_duration`. -/
def Status.reduce_duration (s : Status) : Status :=
  let s1 : Status := { s with duration := s.duration - 1 }
  if s1.duration = 0 then
    let s2 : Status := { s1 with stack := s1.stack - 1 }
    if s2.stack = 0 then s2
    else { s2 with duration := s2.applied_duration }
  else s1

/-- `Status.reapply` (action_core.py lines 142-146). -/
def Status.reapply (s : Status) : Status :=
  { s with duration := min (s.duration + s.applied_duration) s.max_duration,
           stack := min (s.stack + 1) s.max_stacks }

/- ----------------------------------------------------------------
   Status application (action_core.py, Action.apply_status / statusing)
   ---------------------------------------------------------------- -/

/-- The loop of `Action.apply_status` keeps the LAST list entry whose name
matches in `apply_me` and calls `reapply` on that object; this helper
reapplies exactly the last matching entry of the list. -/
def reapplyLast : List Status → String → List Status
  | [], _ => []
  | s :: rest, n =>
    if rest.any (fun t => t.name == n) then s :: reapplyLast rest n
    else if s.name == n then Status.reapply s :: rest
    else s :: rest

/-- `Action.apply_status` (action_core.py lines 320-330): reapply an already
present status of that name, otherwise append a fresh instance built from
the catalog record. -/
def apply_status (statuses : List Status) (status_name : String)
    (cat : String → StatusDef) : List Status :=
  if statuses.any (fun s => s.name == status_name) then
    reapplyLast statuses status_name
  else
    statuses ++ [Status.mk_from_def status_name (cat status_name)]

/-- The inner loop of `Action.statusing` over `self.actor.statuses`
(action_core.py lines 309-314): every status whose name matches the one just
applied gets `duration += 1`, offsetting the same-turn end-of-turn tick. -/
def bump_matching (statuses : List Status) (n : String) : List Status :=
  statuses.map (fun thing =>
    if thing.name == n then { thing with duration := thing.duration + 1 }
    else thing)

/-- The `status_for_actor` half of `Action.statusing`
(action_core.py lines 307-314), acting on the actor's status list. -/
def statusing_actor (statuses : List Status) (status_for_actor : List String)
    (cat : String → StatusDef) : List Status :=
  status_for_actor.foldl
    (fun sts n => bump_matching (apply_status sts n cat) n) statuses

/-- The `status_for_target` half of `Action.statusing`
(action_core.py lines 316-318), acting on one target's status list. -/
def statusing_target (statuses : List Status) (status_for_target : List String)
    (cat : String → StatusDef) : List Status :=
  status_for_target.foldl (fun sts n => apply_status sts n cat) statuses

/-- End-of-turn status processing of the acting character
(battle.py lines 151-154): `reduce_duration` on every status, then keep
only those with `stack > 0`. -/
def endTurnStatuses (statuses : List Status) : List Status :=
  (statuses.map Status.reduce_duration).filter (fun s => 0 < s.stack)

/- ----------------------------------------------------------------
   Character (character.py, class Character)
   ---------------------------------------------------------------- -/

/-- A `Character` (character.py lines 19-134) restricted to the mutable
battle-relevant fields the verified claims touch; catalog-derived
commands/abilities and the inventory handle are definitional plumbing.
`affinities` maps an element name to its integer multiplier. -/
structure Character where
  name : String
  hp : ℤ
  hp_max : ℤ
  mp : ℤ
  mp_max : ℤ
  strength : ℤ
  defense : ℤ
  magic : ℤ
  mdefense : ℤ
  speed : ℤ
  atb : ℤ
  limit : ℤ
  statuses : List Status
  affinities : List (String × ℤ)
deriving DecidableEq

/-- `Character.level_up` (character.py lines 130-134) applied to one base
stat: `int(value * (level**2 / 10000))`. -/
def level_up_stat (base level : ℤ) : ℤ :=
  ratTrunc ((base : ℚ) * ((level : ℚ) ^ 2 / 10000))

/- ----------------------------------------------------------------
   Item (item.py)
   ---------------------------------------------------------------- -/

/-- An inventory `Item` (item.py lines 16-25).  The bound `action` object is
definitional data irrelevant to the verified claims and is omitted. -/
structure Item where
  name : String
  quantity : ℤ
deriving DecidableEq

/- ----------------------------------------------------------------
   Action (action_core.py, class Action and its subclasses)
   ---------------------------------------------------------------- -/

/-- Python-class tag for the `isinstance` dispatch in `Action.apply_costs`:
`Item_Action` and `Limit` are subclasses of `Action`. -/
inductive ActionClass where
  | base
  | limit
  | item
deriving DecidableEq

/-- The definitional fields of an `Action` (action_core.py lines 152-176),
as resolved from the catalog.  The transient execution annotations
(`actor`, `targets`, `modifiers`, `log_messages`) are passed explicitly to
the functions below instead. -/
structure ActionData where
  name : String
  type : String
  potency : ℤ
  is_physical : Bool
  element : String
  targetting : String
  mp_cost : ℤ
  status_for_actor : List String
  status_for_target : List String
  status_costs : List (String × ℤ)
  cls : ActionClass
deriving DecidableEq

/-- `Action.check_costs`'s status-cost loop (action_core.py lines 340-349):
for each required status name, `next(...)` finds the FIRST status with that
name; a missing status or an insufficient stack returns a reason string. -/
def statusCostCheck : List (String × ℤ) → List Status → Option String
  | [], _ => none
  | (n, stack) :: rest, statuses =>
    match statuses.find? (fun s => s.name == n) with
    | none => some ("Need " ++ n)
    | some this_status =>
      if this_status.stack < stack then
        some ("Need " ++ toString stack ++ " more " ++ n)
      else statusCostCheck rest statuses

/-- `Action.check_costs` (action_core.py lines 332-351): the non-mutating
affordability query; `none` means affordable. -/
def check_costs (a : ActionData) (actor : Character) : Option String :=
  if actor.mp < a.mp_cost then some "Not enough MP"
  else statusCostCheck a.status_costs actor.statuses

/-- Consumption of one unit of the first inventory item with the given name
(`used_item.quantity -= 1` followed by `inventory.remove(used_item)` when
the quantity reaches 0, action_core.py lines 374-376). -/
def consumeFirst (n : String) : List Item → List Item
  | [] => []
  | it :: rest =>
    if it.name == n then
      if it.quantity - 1 = 0 then rest
      else { it with quantity := it.quantity - 1 } :: rest
    else it :: consumeFirst n rest

/-- `Action.apply_costs` (action_core.py lines 353-381).  Returns the
mutated actor, the mutated shared inventory, and the error-channel return
value (`None` on success).  The status-cost loop subtracts the required
stack from every status of the actor carrying the cost's name; the
mp / item / limit deductions are the source's `if` / `elif` chain and are
mutually exclusive. -/
def apply_costs (a : ActionData) (actor : Character) (inventory : List Item) :
    Character × List Item × Option String :=
  let costPaid := a.status_costs.foldl (fun sts nc =>
    sts.map (fun status =>
      if status.name == nc.1 then
        { status with stack := status.stack - nc.2 }
      else status)) actor.statuses
  let actor := { actor with statuses := costPaid }
  if 0 < a.mp_cost then
    ({ actor with mp := actor.mp - a.mp_cost }, inventory, none)
  else if a.cls = ActionClass.item then
    match inventory.find? (fun item => item.name == a.name) with
    | none => (actor, inventory, some ("No " ++ a.name ++ " in inventory"))
    | some _ => (actor, consumeFirst a.name inventory, none)
  else if a.cls = ActionClass.limit then
    ({ actor with limit := 0 }, inventory, none)
  else
    (actor, inventory, none)

/- ----------------------------------------------------------------
   Combat formulas (action_core.py lines 383-430)
   ---------------------------------------------------------------- -/

/-- `Action.damageFormula` (action_core.py lines 383-390) at an explicit
potency: `int(attack / 2**(defense/attack) * (potency/100))`.  The float
division `defense/attack` raises `ZeroDivisionError` in Python when
`attack == 0`; that failure is modelled as `none`. -/
noncomputable def damageFormula (attack defense potency : ℤ) : Option ℤ :=
  if attack = 0 then none
  else some (realTrunc ((attack : ℝ) / (2 : ℝ) ^ ((defense : ℝ) / (attack : ℝ))
    * ((potency : ℝ) / 100)))

/-- `Action.dealDamage` (action_core.py lines 392-414) on the target's hp:
the modifier list (variance roll, optional affinity, optional critical) is
multiplied onto the raw damage, truncated with `int()`, clamped at the
target's current hp, and subtracted.  Returns (final damage, new hp). -/
def dealDamage (damage : ℤ) (modifiers : List ℚ) (hp : ℤ) : ℤ × ℤ :=
  let damage_temp : ℚ := modifiers.foldl (fun acc m => acc * m) (damage : ℚ)
  let d : ℤ := ratTrunc damage_temp
  let d : ℤ := if d > hp then hp else d
  (d, hp - d)

/-- The modifier list `dealDamage` builds (action_core.py lines 396-404):
the variance roll `randint(85,115)/100` stubbed to an explicit rational, the
target's affinity multiplier when the action's element is present in the
target's table, and the critical multiplier 2 when the stubbed critical roll
hits. -/
def dealDamage_mods (variance : ℚ) (affinity : Option ℤ) (crit : Bool) :
    List ℚ :=
  [variance]
    ++ (match affinity with | some m => [(m : ℚ)] | none => [])
    ++ (if crit then [(2 : ℚ)] else [])

/-- `Action.damage_single` composed with `dealDamage`
(action_core.py lines 255-271 and 392-414), with the random rolls stubbed:
physical actions use `(actor.strength, target.defense)`, magical ones
`(actor.magic, target.mdefense)`; the `custom_potency` override is `None`
on the `execute` path modelled here.  Returns the updated target, or `none`
when the damage formula raises. -/
noncomputable def damage_single (a : ActionData) (actor target : Character)
    (variance : ℚ) (crit : Bool) : Option Character :=
  let dmg : Option ℤ :=
    if a.is_physical then damageFormula actor.strength target.defense a.potency
    else damageFormula actor.magic target.mdefense a.potency
  dmg.map (fun damage =>
    let mods := dealDamage_mods variance (target.affinities.lookup a.element)
      crit
    { target with hp := (dealDamage damage mods target.hp).2 })

/-- `Action.healFormula` (action_core.py lines 416-423) with the variance
roll `randint(85,115)` stubbed: `int(attack/2 * (potency/100) * roll/100)`. -/
def healFormula (attack potency roll : ℤ) : ℤ :=
  ratTrunc ((attack : ℚ) / 2 * ((potency : ℚ) / 100) * ((roll : ℚ) / 100))

/-- `Action.dealHeal` (action_core.py lines 425-430) on the target's hp:
clamp the heal so hp never exceeds `hp_max`, then add.  Returns
(final heal, new hp). -/
def dealHeal (heal : ℤ) (hp hp_max : ℤ) : ℤ × ℤ :=
  let h : ℤ := if hp + heal > hp_max then hp_max - hp else heal
  (h, hp + h)

/- ----------------------------------------------------------------
   Battle state machine (battle.py)
   ---------------------------------------------------------------- -/

/-- The battle-state classes of battle.py as a tagged union; states carry
the acting character by name.  `SpeedTie`/`WaitingForTie` payloads are not
needed by the verified claims. -/
inductive BState where
  | Waiting
  | SpeedTie
  | WaitingForTie
  | PrepareActor (actor : String)
  | ControlledTurn (actor : String)
  | AITurn (actor : String)
  | CheckingDeath (actor : String)
  | Burying (actor : String)
  | EndingTurn (actor : String)
  | Victory
  | Loss
deriving DecidableEq

/-- `Battle.READY_THRESHOLD` (battle.py line 197). -/
def READY_THRESHOLD : ℤ := 296

/-- The `Battle` aggregate (battle.py lines 193-215).  In Python `party`,
`enemies` and `battlers` alias the same `Character` objects and membership
tests use object identity; characters are identified here by their (unique)
names, so `party`/`enemies`/`ready_actors` are name lists while `battlers`
and `graveyard` own the character records. -/
structure Battle where
  party : List String
  enemies : List String
  battlers : List Character
  ready_actors : List String
  graveyard : List Character
  inventory : List Item
  state : BState
  outcome : Option String
deriving DecidableEq

/-- End-of-turn update of the acting character (battle.py lines 150-154):
gauge carry-over by the threshold and status duration bookkeeping. -/
def endTurnCharacter (c : Character) : Character :=
  { c with atb := c.atb - READY_THRESHOLD,
           statuses := endTurnStatuses c.statuses }

/-- `EndingTurn.loop` (battle.py lines 147-155).  Python's
`ready_actors.remove(actor)` removes the first occurrence and raises
`ValueError` when the actor is absent; the state machine only enters
`EndingTurn` with the actor queued, so the removal is modelled as
`List.erase` and the theorems carry the membership hypothesis. -/
def endingTurnLoop (battle : Battle) (actor : String) : Battle :=
  { battle with
    ready_actors := battle.ready_actors.erase actor,
    battlers := battle.battlers.map
      (fun c => if c.name == actor then endTurnCharacter c else c),
    state := BState.Waiting }

/-- The first half of `Burying.loop`'s scan (battle.py lines 164-166):
every battler at 0 hp gets its atb gauge zeroed. -/
def zeroDeadAtb (c : Character) : Character :=
  if c.hp = 0 then { c with atb := 0 } else c

/-- The net effect of `dying_battler_index` and `battlers.pop` in
`Burying.loop`: the loop leaves the index of the LAST battler at 0 hp in
`dying_battler_index`, and that battler is popped.  Returns the remaining
list and the popped battler, or `none` when no battler is dead (in Python
the name `dying_battler_index` would then be unbound and raise). -/
def extractLastDead : List Character → Option (List Character × Character)
  | [] => none
  | b :: rest =>
    match extractLastDead rest with
    | some (rest', d) => some (b :: rest', d)
    | none => if b.hp = 0 then some (rest, b) else none

/-- `Burying.loop` (battle.py lines 163-174): zero every dead battler's
gauge, move the last dead battler to the graveyard, then set the state to
`EndingTurn`, overridden by `Loss`/`Victory` when the move leaves a whole
side in the graveyard. -/
def buryingLoop (battle : Battle) (actor : String) : Option Battle :=
  let battlers := battle.battlers.map zeroDeadAtb
  match extractLastDead battlers with
  | none => none
  | some (battlers', d) =>
    let graveyard := battle.graveyard ++ [d]
    let state :=
      if battle.party.all (fun n => graveyard.any (fun g => g.name == n)) then
        BState.Loss
      else if battle.enemies.all
          (fun n => graveyard.any (fun g => g.name == n)) then
        BState.Victory
      else BState.EndingTurn actor
    some { battle with battlers := battlers', graveyard := graveyard,
                       state := state }

/- ----------------------------------------------------------------
   Concrete fixtures for witnesses and counterexamples
   ---------------------------------------------------------------- -/

/-- A catalog in which every status name resolves to the in-code default
record (the `Status.__init__` defaults for statuses missing from the CSV). -/
def defaultCat : String → StatusDef := fun _ => defaultStatusDef

/-- The status produced by self-applying a default-parameter status to an
actor with no statuses: fresh stack 1 and duration 3, then the `statusing`
compensation tick pushes the duration to 4 while `max_duration` stays 3. -/
def hasteSelfStatus : Status :=
  { name := "Haste", stack := 1, starting_stacks := 1, max_stacks := 1,
    duration := 4, applied_duration := 3, max_duration := 3,
    stat_modifiers := [] }

/-- A character with the default base stats of character.py lines 49-56 at
the given hp and atb gauge, used for concrete scenarios. -/
def sampleChar (n : String) (hp atb : ℤ) : Character :=
  { name := n, hp := hp, hp_max := 10000, mp := 100, mp_max := 100,
    strength := 100, defense := 100, magic := 100, mdefense := 100,
    speed := 10, atb := atb, limit := 0, statuses := [], affinities := [] }

/-- A battle in `Burying` with two simultaneously dead party members A and
B (gauges 7 and 5) and a live enemy C. -/
def cexBattle : Battle :=
  { party := ["A", "B"], enemies := ["C"],
    battlers := [sampleChar "A" 0 7, sampleChar "B" 0 5, sampleChar "C" 5 7],
    ready_actors := ["C"], graveyard := [], inventory := [],
    state := BState.Burying "C", outcome := none }

/-- A plain damage action costing 5 mp. -/
def fireAction : ActionData :=
  { name := "Fira", type := "Damage Single", potency := 100,
    is_physical := false, element := "Fire", targetting := "Single",
    mp_cost := 5, status_for_actor := [], status_for_target := [],
    status_costs := [], cls := ActionClass.base }

/-- An `Item_Action` for the Potion item-heal (mp cost 0). -/
def potionAction : ActionData :=
  { name := "Potion", type := "Item Heal", potency := 100,
    is_physical := true, element := "None", targetting := "Single",
    mp_cost := 0, status_for_actor := [], status_for_target := [],
    status_costs := [], cls := ActionClass.item }

/-- The in-code default `Action` record (action_core.py lines 156-164),
which is the basic "Attack": physical, potency 100, no element affinity
key, no costs. -/
def attackAction : ActionData :=
  { name := "Attack", type := "Damage Single", potency := 100,
    is_physical := true, element := "None", targetting := "Single",
    mp_cost := 0, status_for_actor := [], status_for_target := [],
    status_costs := [], cls := ActionClass.base }

/-- A caster who has run out of mp. -/
def drainedMage : Character := { sampleChar "Mage" 100 0 with mp := 0 }

/-- A novice-level character whose strength has been scaled to 0 by
`level_up` (e.g. base 100 at level 9: `int(100 * 81/10000) = 0`). -/
def noviceChar : Character := { sampleChar "Novice" 100 0 with strength := 0 }

/-- A fresh default-parameter status as `apply_status` creates it for a
target (no compensation tick): stack 1, duration 3 = max_duration. -/
def freshHaste : Status := Status.mk_from_def "Haste" defaultStatusDef

/-- The status produced by the §8 Scenario C stacking test with
starting_stacks 1, max_stacks 3, applied_duration 3, max_duration 10:
two applications in succession. -/
def scenarioStatus : Status :=
  { name := "X", stack := 2, starting_stacks := 1, max_stacks := 3,
    duration := 6, applied_duration := 3, max_duration := 10,
    stat_modifiers := [] }

/-- The §8 Scenario C catalog record: starting_stacks 1, max_stacks 3,
applied_duration 3, max_duration 10. -/
def scenarioDef : StatusDef :=
  { starting_stacks := 1, max_stacks := 3, applied_duration := 3,
    max_duration := 10, stat_modifiers := [] }

/-- Catalog sanity: the record's starting stacks and applied duration are
at least 1 and within their respective maxima.  Every real catalog row and
the in-code default record satisfy this. -/
def saneDef (d : StatusDef) : Prop :=
  1 ≤ d.starting_stacks ∧ d.starting_stacks ≤ d.max_stacks ∧
  1 ≤ d.applied_duration ∧ d.applied_duration ≤ d.max_duration

/-- The status invariant that actually holds on live statuses in this code:
stack within `[1, max_stacks]`, duration within `[1, max_duration + 1]`
(the `statusing` self-application compensation tick can exceed
`max_duration` by exactly one), and a sane applied duration. -/
def statusWF (s : Status) : Prop :=
  1 ≤ s.stack ∧ s.stack ≤ s.max_stacks ∧
  1 ≤ s.duration ∧ s.duration ≤ s.max_duration + 1 ∧
  1 ≤ s.applied_duration ∧ s.applied_duration ≤ s.max_duration

/-- A battle in `EndingTurn` with the acting Hero queued and carrying one
fresh status. -/
def heroBattle : Battle :=
  { party := ["Hero"], enemies := ["Slime"],
    battlers := [{ sampleChar "Hero" 5000 300 with statuses := [freshHaste] },
                 sampleChar "Slime" 800 10],
    ready_actors := ["Hero"], graveyard := [], inventory := [],
    state := BState.EndingTurn "Hero", outcome := none }

/- ----------------------------------------------------------------
   Helper lemmas
   ---------------------------------------------------------------- -/

lemma ratTrunc_eq_floor (q : ℚ) (h : 0 ≤ q) : ratTrunc q = ⌊q⌋ := by
  rw [Rat.floor_def, ratTrunc]
  exact Int.tdiv_eq_ediv (Rat.num_nonneg.mpr h) (Int.ofNat_nonneg q.den)

lemma ratTrunc_nonneg (q : ℚ) (h : 0 ≤ q) : 0 ≤ ratTrunc q :=
  Int.tdiv_nonneg (Rat.num_nonneg.mpr h) (Int.ofNat_nonneg q.den)

lemma realTrunc_intCast (n : ℤ) : realTrunc (n : ℝ) = n := by
  unfold realTrunc
  split
  · exact Int.floor_intCast n
  · exact Int.ceil_intCast n

lemma foldl_mul_nonneg (l : List ℚ) (acc : ℚ) (hacc : 0 ≤ acc)
    (hl : ∀ m ∈ l, 0 ≤ m) : 0 ≤ l.foldl (fun a m => a * m) acc := by
  induction l generalizing acc with
  | nil => exact hacc
  | cons m rest ih =>
    exact ih _ (mul_nonneg hacc (hl m (by simp)))
      (fun x hx => hl x (by simp [hx]))

lemma dealDamage_snd (damage : ℤ) (modifiers : List ℚ) (hp : ℤ) :
    (dealDamage damage modifiers hp).2
      = hp - (if ratTrunc (modifiers.foldl (fun acc m => acc * m)
                (damage : ℚ)) > hp then hp
              else ratTrunc (modifiers.foldl (fun acc m => acc * m)
                (damage : ℚ))) := rfl

lemma dealHeal_snd (heal hp hp_max : ℤ) :
    (dealHeal heal hp hp_max).2
      = hp + (if hp + heal > hp_max then hp_max - hp else heal) := rfl

/-- C2: after damage resolution (`dealDamage`, which is how every damage
kind lands on a target) and after heal resolution (`dealHeal`, shared by
heal and item-heal actions), the target's hp stays within `[0, hp_max]`:
the final damage is clamped at the target's current hp and the heal is
clamped at `hp_max - hp`.  Hypotheses: the target starts within bounds and
the raw damage, modifiers and heal are nonnegative, as produced by the
formulas and catalog data. -/
theorem c2_hp_clamping (damage : ℤ) (modifiers : List ℚ) (heal : ℤ)
    (hp1 hp_max1 hp2 hp_max2 : ℤ)
    (hdmg : 0 ≤ damage) (hmods : ∀ m ∈ modifiers, 0 ≤ m)
    (hhp1 : 0 ≤ hp1) (hhp1m : hp1 ≤ hp_max1)
    (hheal : 0 ≤ heal) (hhp2 : 0 ≤ hp2) (hhp2m : hp2 ≤ hp_max2) :
    (0 ≤ (dealDamage damage modifiers hp1).2 ∧
     (dealDamage damage modifiers hp1).2 ≤ hp_max1) ∧
    (0 ≤ (dealHeal heal hp2 hp_max2).2 ∧
     (dealHeal heal hp2 hp_max2).2 ≤ hp_max2) := by
  constructor
  · rw [dealDamage_snd]
    have h0 : 0 ≤ ratTrunc (modifiers.foldl (fun acc m => acc * m)
        (damage : ℚ)) :=
      ratTrunc_nonneg _ (foldl_mul_nonneg _ _ (by exact_mod_cast hdmg) hmods)
    split <;> omega
  · rw [dealHeal_snd]
    split <;> omega

/-- Closed instance of the clamping theorem: damage 30 with modifier 1 on
a 20 hp target floors at 0 hp; heal 40 on 20/50 hp caps at 50. -/
theorem c2_hp_clamping_witness :
    (0 ≤ (dealDamage 30 [1] 20).2 ∧ (dealDamage 30 [1] 20).2 ≤ 50) ∧
    (0 ≤ (dealHeal 40 20 50).2 ∧ (dealHeal 40 20 50).2 ≤ 50) :=
  c2_hp_clamping 30 [1] 40 20 50 20 50 (by norm_num)
    (by intro m hm; simp at hm; simp [hm]) (by norm_num) (by norm_num)
    (by norm_num) (by norm_num) (by norm_num)

/-- C10: in `apply_costs` the mp deduction, the inventory consumption and
the limit reset form an `if`/`elif` chain, so they are mutually exclusive:
with a positive `mp_cost` the mp is deducted and the shared inventory is
returned completely unchanged (even for an `Item_Action`), and the
inventory can only change when `mp_cost` is not positive. -/
theorem c10_cost_branches_exclusive (a : ActionData) (actor : Character)
    (inv : List Item) (hmp : 0 < a.mp_cost) :
    ((apply_costs a actor inv).2.1 = inv ∧
     ((apply_costs a actor inv).1).mp = actor.mp - a.mp_cost) ∧
    (∀ (b : ActionData) (actor2 : Character) (inv2 : List Item),
      (apply_costs b actor2 inv2).2.1 ≠ inv2 → ¬ 0 < b.mp_cost) := by
  constructor
  · unfold apply_costs
    simp [hmp]
  · intro b actor2 inv2 hne hpos
    apply hne
    unfold apply_costs
    simp [hpos]

/-- Closed instance: a 5-mp `Item_Action` deducts mp and leaves a stocked
inventory untouched, and the plain Potion use that removes an item has a
non-positive mp cost. -/
theorem c10_cost_branches_exclusive_witness :
    ((apply_costs { potionAction with mp_cost := 5 } drainedMage
        [{ name := "Potion", quantity := 1 }]).2.1
      = [{ name := "Potion", quantity := 1 }] ∧
     ((apply_costs { potionAction with mp_cost := 5 } drainedMage
        [{ name := "Potion", quantity := 1 }]).1).mp = drainedMage.mp - 5) ∧
    ¬ 0 < potionAction.mp_cost := by
  have h := c10_cost_branches_exclusive { potionAction with mp_cost := 5 }
    drainedMage [{ name := "Potion", quantity := 1 }] (by decide)
  refine ⟨h.1, h.2 potionAction drainedMage
    [{ name := "Potion", quantity := 1 }] ?_⟩
  decide

/-- C4 counterexample: `apply_costs` performs no clamping, so the claimed
invariant `0 ≤ mp` is violated as soon as cost application runs without the
(advisory, caller-side) affordability check: a 5-mp action resolved by an
actor at 0 mp drives the mp to -5. -/
theorem c4_counterexample :
    ((apply_costs fireAction drainedMage []).1).mp = -5 ∧
    ¬ 0 ≤ ((apply_costs fireAction drainedMage []).1).mp := by
  exact ⟨rfl, by decide⟩

/-- C4 amended: `0 ≤ mp ≤ mp_max` is preserved by `apply_costs` only under
the precondition that the affordability check `check_costs` passed (which
implies `mp_cost ≤ mp`); `apply_costs` itself never clamps, and since it is
not gated by the check at execution time, the bound is the caller's
responsibility. -/
theorem c4_amended_mp_bounds (a : ActionData) (actor : Character)
    (inv : List Item) (hcheck : check_costs a actor = none)
    (h0 : 0 ≤ actor.mp) (h1 : actor.mp ≤ actor.mp_max) :
    0 ≤ ((apply_costs a actor inv).1).mp ∧
    ((apply_costs a actor inv).1).mp ≤ actor.mp_max := by
  have hmp : a.mp_cost ≤ actor.mp := by
    by_contra h
    push_neg at h
    unfold check_costs at hcheck
    simp [h] at hcheck
  unfold apply_costs
  by_cases hc : 0 < a.mp_cost
  · simp only [hc, if_pos]
    constructor <;> simp <;> omega
  · simp only [hc, if_neg, if_false]
    split
    · split <;> simp <;> omega
    · split <;> simp <;> omega

/-- Closed instance: a caster with 100/100 mp passing the affordability
check keeps its mp within bounds through cost application of the 5-mp
action. -/
theorem c4_amended_mp_bounds_witness :
    0 ≤ ((apply_costs fireAction (sampleChar "Mage" 100 0) []).1).mp ∧
    ((apply_costs fireAction (sampleChar "Mage" 100 0) []).1).mp
      ≤ (sampleChar "Mage" 100 0).mp_max :=
  c4_amended_mp_bounds fireAction (sampleChar "Mage" 100 0) []
    (by decide) (by decide) (by decide)

/-- C9: the damage formula divides by the acting attack stat, so it is
total exactly on nonzero attack: at `attack = 0` the Python float division
`defense/attack` raises `ZeroDivisionError` (modelled as `none`), and the
physical `damage_single` path therefore fails for an actor with strength 0;
the `level_up` scaling `int(base * level**2 / 10000)` produces exactly such
a 0 stat at low levels (base 100 at level 9). -/
theorem c9_damage_division_by_zero :
    (∀ defense potency : ℤ, damageFormula 0 defense potency = none) ∧
    (∀ attack defense potency : ℤ, attack ≠ 0 →
        (damageFormula attack defense potency).isSome = true) ∧
    (∀ (a : ActionData) (actor target : Character) (variance : ℚ)
        (crit : Bool), a.is_physical = true → actor.strength = 0 →
        damage_single a actor target variance crit = none) ∧
    level_up_stat 100 9 = 0 := by
  refine ⟨?_, ?_, ?_, ?_⟩
  · intro defense potency
    simp [damageFormula]
  · intro attack defense potency h
    simp [damageFormula, h]
  · intro a actor target variance crit hphys hstr
    simp [damage_single, hphys, hstr, damageFormula]
  · have h : (100:ℚ) * ((9:ℚ)^2 / 10000) = 81/100 := by norm_num
    simp only [level_up_stat, h]
    norm_num [ratTrunc]
    decide

/-- Closed instance: the formula succeeds at attack 100 and the basic
physical attack of a level-scaled zero-strength novice fails. -/
theorem c9_damage_division_by_zero_witness :
    (damageFormula 100 100 100).isSome = true ∧
    damage_single attackAction noviceChar (sampleChar "Dummy" 100 0) 1 false
      = none :=
  ⟨c9_damage_division_by_zero.2.1 100 100 100 (by decide),
   c9_damage_division_by_zero.2.2.1 attackAction noviceChar
     (sampleChar "Dummy" 100 0) 1 false rfl rfl⟩

lemma find?_name_append (nm : String) (pre post : List Item) (it : Item)
    (hpre : ∀ j ∈ pre, j.name ≠ nm) (hit : it.name = nm) :
    (pre ++ it :: post).find? (fun item => item.name == nm) = some it := by
  induction pre with
  | nil => simp [List.find?_cons, hit]
  | cons p rest ih =>
    have hp : (p.name == nm) = false := by
      simpa using hpre p (by simp)
    simp only [List.cons_append, List.find?_cons, hp]
    exact ih (fun j hj => hpre j (by simp [hj]))

lemma consumeFirst_append (nm : String) (pre post : List Item) (it : Item)
    (hpre : ∀ j ∈ pre, j.name ≠ nm) (hit : it.name = nm) :
    consumeFirst nm (pre ++ it :: post)
      = pre ++ (if it.quantity - 1 = 0 then post
                else { it with quantity := it.quantity - 1 } :: post) := by
  induction pre with
  | nil => simp [consumeFirst, hit]
  | cons p rest ih =>
    have hp : (p.name == nm) = false := by
      simpa using hpre p (by simp)
    simp only [List.cons_append, consumeFirst, hp, Bool.false_eq_true,
      if_false, List.cons.injEq, true_and]
    exact ih (fun j hj => hpre j (by simp [hj]))

/-- C6: resolving an item action (`apply_costs` on an `Item_Action` with
non-positive mp cost, the item-heal path) consumes exactly one unit of the
first inventory entry carrying the action's name, removing the entry when
its quantity reaches zero; when no entry carries the name, the inventory is
left unchanged and the InventoryExhausted signal
`"No <name> in inventory"` is reported on the error channel (the
`apply_costs` return value). -/
theorem c6_item_consumption (a : ActionData) (actor : Character)
    (hcls : a.cls = ActionClass.item) (hmp : ¬ 0 < a.mp_cost) :
    (∀ (pre post : List Item) (it : Item),
        (∀ j ∈ pre, j.name ≠ a.name) → it.name = a.name →
        (apply_costs a actor (pre ++ it :: post)).2.2 = none ∧
        (apply_costs a actor (pre ++ it :: post)).2.1
          = pre ++ (if it.quantity - 1 = 0 then post
                    else { it with quantity := it.quantity - 1 } :: post)) ∧
    (∀ inv : List Item, (∀ j ∈ inv, j.name ≠ a.name) →
        (apply_costs a actor inv).2.2
          = some ("No " ++ a.name ++ " in inventory") ∧
        (apply_costs a actor inv).2.1 = inv) := by
  constructor
  · intro pre post it hpre hit
    unfold apply_costs
    rw [if_neg hmp, if_pos hcls, find?_name_append a.name pre post it hpre hit,
      consumeFirst_append a.name pre post it hpre hit]
    exact ⟨rfl, rfl⟩
  · intro inv hinv
    unfold apply_costs
    have hnone : inv.find? (fun item => item.name == a.name) = none := by
      rw [List.find?_eq_none]
      intro j hj
      simpa using hinv j hj
    rw [if_neg hmp, if_pos hcls, hnone]
    exact ⟨rfl, rfl⟩

/-- Closed instance of §8 Scenario E: a Potion at quantity 1 is consumed
and its entry removed, and a second use reports the exhaustion signal with
the inventory unchanged. -/
theorem c6_item_consumption_witness :
    ((apply_costs potionAction drainedMage
        [{ name := "Potion", quantity := 1 }]).2.2 = none ∧
     (apply_costs potionAction drainedMage
        [{ name := "Potion", quantity := 1 }]).2.1
       = [] ++ (if (1:ℤ) - 1 = 0 then ([] : List Item)
                else [{ name := "Potion", quantity := (1:ℤ) - 1 }])) ∧
    ((apply_costs potionAction drainedMage []).2.2
       = some ("No " ++ potionAction.name ++ " in inventory") ∧
     (apply_costs potionAction drainedMage []).2.1 = []) := by
  have h := c6_item_consumption potionAction drainedMage rfl (by decide)
  exact ⟨h.1 [] [] { name := "Potion", quantity := 1 }
    (fun j hj => absurd hj (List.not_mem_nil j)) rfl, h.2 []
    (fun j hj => absurd hj (List.not_mem_nil j))⟩

/-- C3: §8 Scenario A.  With the generator stubbed to the 100% variance
roll and no critical, and the action's element absent from the target's
affinity table, a physical potency-100 action by a strength-100 actor
against a defense-100 target computes `raw = 100 / 2^(100/100) * 1 = 50`,
and the target's hp drops by exactly 50 (no clamping, since the target has
at least 50 hp). -/
theorem c3_deterministic_damage (a : ActionData) (actor target : Character)
    (hphys : a.is_physical = true) (hpot : a.potency = 100)
    (hstr : actor.strength = 100) (hdef : target.defense = 100)
    (haff : target.affinities.lookup a.element = none)
    (hhp : 50 ≤ target.hp) :
    (damage_single a actor target 1 false).map Character.hp
      = some (target.hp - 50) := by
  have hf : damageFormula 100 100 100 = some 50 := by
    unfold damageFormula
    rw [if_neg (by decide)]
    have h1 : ((100:ℤ):ℝ) / ((100:ℤ):ℝ) = 1 := by norm_num
    have h2 : ((100:ℤ):ℝ) / (2:ℝ) ^ (1:ℝ) * (((100:ℤ):ℝ) / 100)
        = ((50:ℤ):ℝ) := by
      rw [Real.rpow_one]; push_cast; norm_num
    rw [h1, h2, realTrunc_intCast]
  have ht : ratTrunc (List.foldl (fun acc m => acc * m) ((50:ℤ):ℚ)
      [(1:ℚ)]) = 50 := by
    simp [ratTrunc]
  have hmods : dealDamage_mods 1 (target.affinities.lookup a.element) false
      = [(1:ℚ)] := by rw [haff]; rfl
  unfold damage_single
  rw [hphys, if_pos rfl, hstr, hdef, hpot, hf]
  simp only [Option.map_some']
  congr 1
  show ({ target with hp := (dealDamage 50 (dealDamage_mods 1
      (target.affinities.lookup a.element) false) target.hp).2 } :
      Character).hp = target.hp - 50
  rw [hmods, dealDamage_snd, ht, if_neg (by omega)]

/-- Closed instance of Scenario A: the default basic attack between two
default-stat characters at 1000 hp lands exactly 50 damage. -/
theorem c3_deterministic_damage_witness :
    (damage_single attackAction (sampleChar "Hero" 1000 0)
        (sampleChar "Dummy" 1000 0) 1 false).map Character.hp
      = some (1000 - 50) :=
  c3_deterministic_damage attackAction (sampleChar "Hero" 1000 0)
    (sampleChar "Dummy" 1000 0) rfl rfl rfl rfl rfl (by decide)

/-- C8 counterexample: reapplication CAN decrease an existing duration on a
reachable state.  Self-applying a default-parameter status through
`statusing` leaves duration 4 > max_duration 3 (the compensation tick);
reapplying that status clamps the duration back down to min(4+3, 3) = 3,
a strict decrease. -/
theorem c8_counterexample :
    statusing_actor [] ["Haste"] defaultCat = [hasteSelfStatus] ∧
    (Status.reapply hasteSelfStatus).duration < hasteSelfStatus.duration :=
  ⟨rfl, by decide⟩

/-- C8 amended: `reapply` sets duration to
`min(duration + applied_duration, max_duration)` and stack to
`min(stack + 1, max_stacks)` exactly as claimed, and it never decreases a
duration (resp. stack) already within `max_duration` (resp. `max_stacks`)
when the applied duration is nonnegative; the only reachable decrease is
from the duration `max_duration + 1` left by the self-application tick.
The §8 Scenario C stacking instance (starting_stacks 1, max_stacks 3,
applied_duration 3 applied twice in succession) yields stack 2 and
duration `min(3+3, max_duration)`. -/
theorem c8_reapply (s : Status) (md : ℤ) (n : String) :
    ((Status.reapply s).duration
        = min (s.duration + s.applied_duration) s.max_duration ∧
     (Status.reapply s).stack = min (s.stack + 1) s.max_stacks) ∧
    (0 ≤ s.applied_duration → s.duration ≤ s.max_duration →
        s.duration ≤ (Status.reapply s).duration) ∧
    (s.stack ≤ s.max_stacks → s.stack ≤ (Status.reapply s).stack) ∧
    (∀ s2 ∈ apply_status (apply_status [] n
        (fun _ => { scenarioDef with max_duration := md })) n
        (fun _ => { scenarioDef with max_duration := md }),
      s2.stack = 2 ∧ s2.duration = min (3 + 3) md) := by
  refine ⟨⟨rfl, rfl⟩, ?_, ?_, ?_⟩
  · intro h1 h2
    simp only [Status.reapply]
    omega
  · intro h
    simp only [Status.reapply]
    omega
  · intro s2 hs2
    simp only [apply_status, reapplyLast, Status.mk_from_def, List.any_nil,
      List.any_cons, List.nil_append, Bool.or_false, beq_self_eq_true,
      if_true, if_false, Bool.false_eq_true, Status.reapply] at hs2
    simp only [List.mem_singleton] at hs2
    subst hs2
    refine ⟨by simp [scenarioDef], by simp [scenarioDef]⟩

/-- Closed instance: on a fresh in-bounds status the reapply equations and
monotonicity hold, and the Scenario C double application (max_duration 10)
yields stack 2, duration 6. -/
theorem c8_reapply_witness :
    (Status.reapply freshHaste).duration
      = min (freshHaste.duration + freshHaste.applied_duration)
          freshHaste.max_duration ∧
    freshHaste.duration ≤ (Status.reapply freshHaste).duration ∧
    freshHaste.stack ≤ (Status.reapply freshHaste).stack ∧
    scenarioStatus.stack = 2 ∧ scenarioStatus.duration = min (3 + 3) 10 := by
  have h := c8_reapply freshHaste 10 "X"
  have hs := h.2.2.2 scenarioStatus (by decide)
  exact ⟨h.1.1, h.2.1 (by decide) (by decide), h.2.2.1 (by decide),
    hs.1, hs.2⟩

/-- C7: `EndingTurn.loop` removes the acting member from the ready queue
(first occurrence; it does not reappear, since the queue holds no
duplicates), updates exactly the acting character — gauge decreased by
exactly the threshold (carry-over, not reset to zero) and statuses put
through one `reduce_duration` tick then filtered to positive stacks — and
hands the machine back to `Waiting`.  The per-status tick follows the §4.3
rule: while the decremented duration is nonzero only the duration drops;
at zero the stack decrements, the duration resetting to
`applied_duration` while the stack stays nonzero and staying 0 when the
stack expires. -/
theorem c7_ending_turn (battle : Battle) (actor : String)
    (hcount : battle.ready_actors.count actor = 1) :
    actor ∉ (endingTurnLoop battle actor).ready_actors ∧
    (endingTurnLoop battle actor).state = BState.Waiting ∧
    (endingTurnLoop battle actor).battlers
      = battle.battlers.map
          (fun c => if c.name == actor then endTurnCharacter c else c) ∧
    (∀ c : Character,
        (endTurnCharacter c).atb = c.atb - READY_THRESHOLD ∧
        (endTurnCharacter c).statuses
          = (c.statuses.map Status.reduce_duration).filter
              (fun s => 0 < s.stack) ∧
        (∀ s ∈ (endTurnCharacter c).statuses, 0 < s.stack)) ∧
    (∀ s : Status,
        (s.duration - 1 ≠ 0 →
          Status.reduce_duration s = { s with duration := s.duration - 1 }) ∧
        (s.duration - 1 = 0 →
          (Status.reduce_duration s).stack = s.stack - 1 ∧
          (s.stack - 1 ≠ 0 →
            (Status.reduce_duration s).duration = s.applied_duration) ∧
          (s.stack - 1 = 0 → (Status.reduce_duration s).duration = 0))) := by
  refine ⟨?_, rfl, rfl, ?_, ?_⟩
  · have h : (battle.ready_actors.erase actor).count actor = 0 := by
      rw [List.count_erase_self, hcount]
    exact List.count_eq_zero.mp h
  · intro c
    refine ⟨rfl, rfl, ?_⟩
    intro s hs
    have : s ∈ (c.statuses.map Status.reduce_duration).filter
        (fun s => 0 < s.stack) := hs
    simpa using (List.of_mem_filter this)
  · intro s
    constructor
    · intro h
      unfold Status.reduce_duration
      rw [if_neg (by simpa using h)]
    · intro h
      unfold Status.reduce_duration
      rw [if_pos (by simpa using h)]
      dsimp only
      refine ⟨?_, ?_, ?_⟩
      · split <;> rfl
      · intro hs
        rw [if_neg (by simpa using hs)]
      · intro hs
        rw [if_pos (by simpa using hs)]
        simpa using h

/-- Closed instance: on the Hero battle the acting Hero leaves the queue
and the machine returns to `Waiting`; the fresh status ticks from
duration 3 to 2. -/
theorem c7_ending_turn_witness :
    "Hero" ∉ (endingTurnLoop heroBattle "Hero").ready_actors ∧
    (endingTurnLoop heroBattle "Hero").state = BState.Waiting ∧
    Status.reduce_duration freshHaste
      = { freshHaste with duration := freshHaste.duration - 1 } := by
  have h := c7_ending_turn heroBattle "Hero" (by decide)
  exact ⟨h.1, h.2.1, (h.2.2.2.2 freshHaste).1 (by decide)⟩

lemma zeroDeadAtb_hp (c : Character) : (zeroDeadAtb c).hp = c.hp := by
  unfold zeroDeadAtb
  split <;> rfl

lemma mem_map_zeroDead_atb (l : List Character) :
    ∀ y ∈ l.map zeroDeadAtb, y.hp = 0 → y.atb = 0 := by
  intro y hy h0
  obtain ⟨x, hx, rfl⟩ := List.mem_map.mp hy
  unfold zeroDeadAtb at h0 ⊢
  by_cases hxh : x.hp = 0
  · rw [if_pos hxh]
  · rw [if_neg hxh] at h0
    exact absurd h0 hxh

lemma extractLastDead_none (l : List Character)
    (h : extractLastDead l = none) : ∀ x ∈ l, x.hp ≠ 0 := by
  induction l with
  | nil => intro x hx; exact absurd hx (List.not_mem_nil x)
  | cons b rest ih =>
    intro x hx
    unfold extractLastDead at h
    cases hrest : extractLastDead rest with
    | some p => rw [hrest] at h; exact absurd h (by simp)
    | none =>
      rw [hrest] at h
      rcases List.mem_cons.mp hx with rfl | hxr
      · intro hb
        rw [if_pos hb] at h
        exact absurd h (by simp)
      · exact ih hrest x hxr

lemma extractLastDead_some (l : List Character) :
    ∀ (l' : List Character) (d : Character),
      extractLastDead l = some (l', d) →
      ∃ pre post, l = pre ++ d :: post ∧ l' = pre ++ post ∧ d.hp = 0 ∧
        ∀ x ∈ post, x.hp ≠ 0 := by
  induction l with
  | nil => intro l' d h; exact absurd h (by simp [extractLastDead])
  | cons b rest ih =>
    intro l' d h
    unfold extractLastDead at h
    cases hrest : extractLastDead rest with
    | some p =>
      obtain ⟨rest', d'⟩ := p
      rw [hrest] at h
      simp only [Option.some.injEq, Prod.mk.injEq] at h
      obtain ⟨hl', hd⟩ := h
      obtain ⟨pre, post, h1, h2, h3, h4⟩ := ih rest' d' hrest
      subst hd
      exact ⟨b :: pre, post, by simp [h1], by simp [← hl', h2], h3, h4⟩
    | none =>
      rw [hrest] at h
      by_cases hb : b.hp = 0
      · rw [if_pos hb] at h
        simp only [Option.some.injEq, Prod.mk.injEq] at h
        obtain ⟨hl', hd⟩ := h
        subst hd
        exact ⟨[], rest, by simp, by simp [hl'], hb,
          extractLastDead_none rest hrest⟩
      · rw [if_neg hb] at h
        exact absurd h (by simp)

lemma extractLastDead_isSome (l : List Character)
    (h : ∃ x ∈ l, x.hp = 0) : (extractLastDead l).isSome = true := by
  cases he : extractLastDead l with
  | some p => rfl
  | none =>
    obtain ⟨x, hx, hx0⟩ := h
    exact absurd hx0 (extractLastDead_none l he x hx)

/-- C5 counterexample: the `Burying` scan zeroes the gauge of EVERY dead
battler, not only the one it moves.  With A (gauge 7) and B (gauge 5) both
dead, one advance moves only B (the last dead member) to the graveyard,
yet A — still in the roster — has had its gauge zeroed from 7 to 0. -/
theorem c5_counterexample :
    cexBattle.battlers.map (fun c => (c.name, c.atb))
      = [("A", 7), ("B", 5), ("C", 7)] ∧
    (buryingLoop cexBattle "C").map
        (fun b => (b.battlers.map (fun c => (c.name, c.atb)),
                   b.graveyard.map Character.name))
      = some ([("A", 0), ("C", 7)], ["B"]) :=
  ⟨rfl, rfl⟩

/-- C5 amended: each `Burying` advance zeroes the gauge of every dead
roster member, then moves exactly one dead member — the last dead one in
roster order, with its gauge already zeroed — to the graveyard, and
transitions to `EndingTurn`, overridden by `Loss`/`Victory` when the move
leaves a whole side in the graveyard; simultaneous deaths are buried one
per cycle over successive visits, never batch-removed. -/
theorem c5_burying (battle : Battle) (actor : String)
    (hdead : ∃ b ∈ battle.battlers, b.hp = 0) :
    ∃ (b' : Battle) (pre post : List Character) (d : Character),
      buryingLoop battle actor = some b' ∧
      battle.battlers.map zeroDeadAtb = pre ++ d :: post ∧
      (∀ x ∈ post, x.hp ≠ 0) ∧
      d.hp = 0 ∧ d.atb = 0 ∧
      b'.battlers = pre ++ post ∧
      b'.graveyard = battle.graveyard ++ [d] ∧
      b'.battlers.length + 1 = battle.battlers.length ∧
      (∀ x ∈ b'.battlers, x.hp = 0 → x.atb = 0) ∧
      (battle.party.all (fun n => (battle.graveyard ++ [d]).any
          (fun g => g.name == n)) = true → b'.state = BState.Loss) ∧
      (battle.party.all (fun n => (battle.graveyard ++ [d]).any
          (fun g => g.name == n)) = false →
       battle.enemies.all (fun n => (battle.graveyard ++ [d]).any
          (fun g => g.name == n)) = true → b'.state = BState.Victory) ∧
      (battle.party.all (fun n => (battle.graveyard ++ [d]).any
          (fun g => g.name == n)) = false →
       battle.enemies.all (fun n => (battle.graveyard ++ [d]).any
          (fun g => g.name == n)) = false →
        b'.state = BState.EndingTurn actor) := by
  have hdead' : ∃ x ∈ battle.battlers.map zeroDeadAtb, x.hp = 0 := by
    obtain ⟨b, hb, hb0⟩ := hdead
    exact ⟨zeroDeadAtb b, List.mem_map_of_mem _ hb,
      (zeroDeadAtb_hp b).trans hb0⟩
  obtain ⟨p, hp⟩ := Option.isSome_iff_exists.mp
    (extractLastDead_isSome _ hdead')
  obtain ⟨battlers', d⟩ := p
  obtain ⟨pre, post, h1, h2, h3, h4⟩ := extractLastDead_some _ _ _ hp
  have hdat : d.atb = 0 := by
    refine mem_map_zeroDead_atb battle.battlers d ?_ h3
    rw [h1]
    simp
  have hloop : buryingLoop battle actor
      = some
          { battle with
            battlers := battlers',
            graveyard := battle.graveyard ++ [d],
            state :=
              if battle.party.all (fun n => (battle.graveyard ++ [d]).any
                  (fun g => g.name == n)) then BState.Loss
              else if battle.enemies.all
                  (fun n => (battle.graveyard ++ [d]).any
                    (fun g => g.name == n)) then BState.Victory
              else BState.EndingTurn actor } := by
    unfold buryingLoop
    simp only [hp]
  refine ⟨_, pre, post, d, hloop, h1, h4, h3, hdat, h2, rfl, ?_, ?_, ?_, ?_, ?_⟩
  · have hlen : (battle.battlers.map zeroDeadAtb).length
        = pre.length + post.length + 1 := by
      simp [h1]
      omega
    simp only [List.length_map] at hlen
    simp only [h2]
    simp [hlen]
  · intro x hx hx0
    refine mem_map_zeroDead_atb battle.battlers x ?_ hx0
    rw [h1]
    have hx' : x ∈ pre ++ post := by simpa [h2] using hx
    rcases List.mem_append.mp hx' with hxp | hxp
    · simp [hxp]
    · simp [hxp]
  · intro hall
    simp only [hall, if_true]
  · intro hpf het
    simp only [hpf, het, Bool.false_eq_true, if_false, if_true]
  · intro hpf hef
    simp only [hpf, hef, Bool.false_eq_true, if_false]

/-- Closed instance: the two-dead battle advances (the `NameError`-free
path) to a `some` state. -/
theorem c5_burying_witness : (buryingLoop cexBattle "C").isSome = true := by
  obtain ⟨b', pre, post, d, h1, -⟩ :=
    c5_burying cexBattle "C" ⟨sampleChar "A" 0 7, by decide, rfl⟩
  rw [h1]
  rfl

lemma reapply_wf (s : Status) (h : statusWF s) :
    statusWF (Status.reapply s) := by
  unfold statusWF Status.reapply at *
  dsimp only at *
  omega

lemma mk_from_def_wf (n : String) (d : StatusDef) (h : saneDef d) :
    statusWF (Status.mk_from_def n d) ∧
    (Status.mk_from_def n d).duration
      ≤ (Status.mk_from_def n d).max_duration := by
  unfold saneDef at h
  unfold statusWF Status.mk_from_def
  dsimp only
  omega

lemma reapplyLast_mem (l : List Status) (n : String) :
    ∀ s ∈ reapplyLast l n, s ∈ l ∨ ∃ t ∈ l, s = Status.reapply t := by
  induction l with
  | nil => intro s hs; simp [reapplyLast] at hs
  | cons b rest ih =>
    intro s hs
    unfold reapplyLast at hs
    by_cases h1 : rest.any (fun t => t.name == n)
    · rw [if_pos h1] at hs
      rcases List.mem_cons.mp hs with rfl | hs'
      · exact Or.inl (by simp)
      · rcases ih s hs' with h | ⟨t, ht, rfl⟩
        · exact Or.inl (List.mem_cons_of_mem _ h)
        · exact Or.inr ⟨t, List.mem_cons_of_mem _ ht, rfl⟩
    · rw [if_neg h1] at hs
      by_cases h2 : (b.name == n) = true
      · rw [if_pos h2] at hs
        rcases List.mem_cons.mp hs with rfl | hs'
        · exact Or.inr ⟨b, by simp, rfl⟩
        · exact Or.inl (List.mem_cons_of_mem _ hs')
      · rw [if_neg h2] at hs
        exact Or.inl hs

lemma reapplyLast_names (l : List Status) (n : String) :
    (reapplyLast l n).map Status.name = l.map Status.name := by
  induction l with
  | nil => rfl
  | cons b rest ih =>
    unfold reapplyLast
    by_cases h1 : rest.any (fun t => t.name == n)
    · rw [if_pos h1]
      simp [ih]
    · rw [if_neg h1]
      by_cases h2 : (b.name == n) = true
      · rw [if_pos h2]
        simp [Status.reapply]
      · rw [if_neg h2]

lemma bump_names (l : List Status) (n : String) :
    (bump_matching l n).map Status.name = l.map Status.name := by
  unfold bump_matching
  rw [List.map_map]
  apply List.map_congr_left
  intro x hx
  by_cases h : (x.name == n) = true
  · rw [Function.comp_apply, if_pos h]
  · rw [Function.comp_apply, if_neg h]

lemma reduce_duration_cases (t : Status) :
    (t.duration - 1 ≠ 0 ∧
      Status.reduce_duration t = { t with duration := t.duration - 1 }) ∨
    (t.duration - 1 = 0 ∧ t.stack - 1 = 0 ∧
      Status.reduce_duration t
        = { t with duration := t.duration - 1, stack := t.stack - 1 }) ∨
    (t.duration - 1 = 0 ∧ t.stack - 1 ≠ 0 ∧
      Status.reduce_duration t
        = { t with duration := t.applied_duration,
                   stack := t.stack - 1 }) := by
  unfold Status.reduce_duration
  dsimp only
  by_cases h1 : t.duration - 1 = 0
  · rw [if_pos h1]
    by_cases h2 : t.stack - 1 = 0
    · rw [if_pos h2]
      exact Or.inr (Or.inl ⟨h1, h2, rfl⟩)
    · rw [if_neg h2]
      exact Or.inr (Or.inr ⟨h1, h2, rfl⟩)
  · rw [if_neg h1]
    exact Or.inl ⟨h1, rfl⟩

lemma endTurn_wf (l : List Status) (hl : ∀ s ∈ l, statusWF s) :
    ∀ s ∈ endTurnStatuses l, statusWF s ∧ s.duration ≤ s.max_duration := by
  intro s hs
  unfold endTurnStatuses at hs
  have hmem := List.mem_of_mem_filter hs
  have hpos : 0 < s.stack := by simpa using List.of_mem_filter hs
  obtain ⟨t, ht, rfl⟩ := List.mem_map.mp hmem
  have hwf := hl t ht
  unfold statusWF at hwf ⊢
  rcases reduce_duration_cases t with ⟨h1, heq⟩ | ⟨h1, h2, heq⟩ |
    ⟨h1, h2, heq⟩ <;> rw [heq] at hpos ⊢ <;> dsimp only at hpos ⊢ <;> omega

lemma apply_status_wf (cat : String → StatusDef) (hcat : ∀ m, saneDef (cat m))
    (l : List Status) (n : String) (hl : ∀ s ∈ l, statusWF s) :
    ∀ s ∈ apply_status l n cat, statusWF s := by
  intro s hs
  unfold apply_status at hs
  by_cases h : l.any (fun s => s.name == n)
  · rw [if_pos h] at hs
    rcases reapplyLast_mem l n s hs with hmem | ⟨t, ht, rfl⟩
    · exact hl s hmem
    · exact reapply_wf t (hl t ht)
  · rw [if_neg h] at hs
    rcases List.mem_append.mp hs with hmem | hmem
    · exact hl s hmem
    · rw [List.mem_singleton.mp hmem]
      exact (mk_from_def_wf n (cat n) (hcat n)).1

lemma apply_status_nodup (cat : String → StatusDef) (l : List Status)
    (n : String) (hnd : (l.map Status.name).Nodup) :
    ((apply_status l n cat).map Status.name).Nodup := by
  unfold apply_status
  by_cases h : l.any (fun s => s.name == n)
  · rw [if_pos h, reapplyLast_names]
    exact hnd
  · rw [if_neg h]
    have hn : n ∉ l.map Status.name := by
      intro hmem
      obtain ⟨t, ht, htn⟩ := List.mem_map.mp hmem
      exact h (List.any_eq_true.mpr ⟨t, ht, by simp [htn]⟩)
    rw [List.map_append]
    refine List.Nodup.append hnd (by simp) ?_
    simp [List.disjoint_singleton, Status.mk_from_def]
    intro x hx hxe
    exact hn (List.mem_map.mpr ⟨x, hx, hxe⟩)

lemma reapplyLast_matching_le (l : List Status) (n : String)
    (hnd : (l.map Status.name).Nodup) (hl : ∀ s ∈ l, statusWF s) :
    ∀ s ∈ reapplyLast l n, s.name = n → s.duration ≤ s.max_duration := by
  induction l with
  | nil => intro s hs; simp [reapplyLast] at hs
  | cons b rest ih =>
    intro s hs hsn
    have hnd' : (rest.map Status.name).Nodup :=
      (List.nodup_cons.mp (by simpa using hnd)).2
    have hbn : b.name ∉ rest.map Status.name :=
      (List.nodup_cons.mp (by simpa using hnd)).1
    unfold reapplyLast at hs
    by_cases h1 : rest.any (fun t => t.name == n)
    · rw [if_pos h1] at hs
      rcases List.mem_cons.mp hs with rfl | hs'
      · exfalso
        obtain ⟨t, ht, htn⟩ := List.any_eq_true.mp h1
        apply hbn
        rw [hsn]
        exact List.mem_map.mpr ⟨t, ht, by simpa using htn⟩
      · exact ih hnd' (fun t ht => hl t (List.mem_cons_of_mem _ ht)) s hs' hsn
    · have h1' : rest.any (fun t => t.name == n) = false := by
        simpa using h1
      have hrest : ∀ t ∈ rest, t.name ≠ n := by
        intro t ht
        have := List.any_eq_false.mp h1' t ht
        simpa using this
      rw [if_neg h1] at hs
      by_cases h2 : (b.name == n) = true
      · rw [if_pos h2] at hs
        rcases List.mem_cons.mp hs with rfl | hs'
        · unfold Status.reapply
          dsimp only
          omega
        · exact absurd hsn (hrest s hs')
      · rw [if_neg h2] at hs
        rcases List.mem_cons.mp hs with rfl | hs'
        · exact absurd hsn (by simpa using h2)
        · exact absurd hsn (hrest s hs')

lemma apply_status_matching_le (cat : String → StatusDef)
    (hcat : ∀ m, saneDef (cat m)) (l : List Status) (n : String)
    (hnd : (l.map Status.name).Nodup) (hl : ∀ s ∈ l, statusWF s) :
    ∀ s ∈ apply_status l n cat, s.name = n →
      s.duration ≤ s.max_duration := by
  intro s hs hsn
  unfold apply_status at hs
  by_cases h : l.any (fun s => s.name == n)
  · rw [if_pos h] at hs
    exact reapplyLast_matching_le l n hnd hl s hs hsn
  · rw [if_neg h] at hs
    rcases List.mem_append.mp hs with hmem | hmem
    · exfalso
      have h' : l.any (fun s => s.name == n) = false := by simpa using h
      have := List.any_eq_false.mp h' s hmem
      exact this (by simpa using hsn)
    · rw [List.mem_singleton.mp hmem]
      exact (mk_from_def_wf n (cat n) (hcat n)).2

lemma bump_wf (l : List Status) (n : String) (hl : ∀ s ∈ l, statusWF s)
    (hle : ∀ s ∈ l, s.name = n → s.duration ≤ s.max_duration) :
    ∀ s ∈ bump_matching l n, statusWF s := by
  intro s hs
  unfold bump_matching at hs
  obtain ⟨t, ht, rfl⟩ := List.mem_map.mp hs
  by_cases h : (t.name == n) = true
  · rw [if_pos h]
    have h1 := hl t ht
    have h2 := hle t ht (by simpa using h)
    unfold statusWF at *
    dsimp only at *
    omega
  · rw [if_neg h]
    exact hl t ht

lemma foldl_preserves {α β : Type} (P : α → Prop) (f : α → β → α)
    (hf : ∀ a b, P a → P (f a b)) (l : List β) (a : α) (ha : P a) :
    P (l.foldl f a) := by
  induction l generalizing a with
  | nil => exact ha
  | cons b rest ih => exact ih (f a b) (hf a b ha)

/-- C1 counterexample: the claimed bound `duration ≤ max_duration` is
violated mid-encounter.  Self-applying a default-parameter status through
`statusing` (which appends a fresh status at duration = max_duration = 3,
then adds the compensation tick) leaves a status at duration 4 on the
actor. -/
theorem c1_counterexample :
    statusing_actor [] ["Haste"] defaultCat = [hasteSelfStatus] ∧
    hasteSelfStatus.max_duration < hasteSelfStatus.duration :=
  ⟨rfl, by decide⟩

/-- C1 amended: with every catalog record sane (starting stacks and applied
duration within `[1, max]`), status application maintains
`1 ≤ stack ≤ max_stacks` and `1 ≤ duration ≤ max_duration + 1` — the
self-application (`status_for_actor`) path can exceed `max_duration` by
exactly the one compensation tick, while target application keeps every
invariant; further, end-of-turn processing restores
`duration ≤ max_duration` and drops exactly the statuses whose stack is no
longer positive, so a status whose stack reaches 0 is removed from its
owner at `EndingTurn` and never mid-turn (the surviving statuses all have
`1 ≤ stack`). -/
theorem c1_status_invariant (cat : String → StatusDef)
    (hcat : ∀ m, saneDef (cat m)) (l : List Status) (names : List String)
    (hwf : ∀ s ∈ l, statusWF s) (hnd : (l.map Status.name).Nodup) :
    (∀ s ∈ statusing_target l names cat, statusWF s) ∧
    (∀ s ∈ statusing_actor l names cat, statusWF s) ∧
    (∀ s ∈ endTurnStatuses l, statusWF s ∧
      s.duration ≤ s.max_duration) := by
  refine ⟨?_, ?_, endTurn_wf l hwf⟩
  · have h := foldl_preserves
      (fun sts => (∀ s ∈ sts, statusWF s) ∧ (sts.map Status.name).Nodup)
      (fun sts n => apply_status sts n cat)
      (fun sts n hp => ⟨apply_status_wf cat hcat sts n hp.1,
        apply_status_nodup cat sts n hp.2⟩)
      names l ⟨hwf, hnd⟩
    exact h.1
  · have h := foldl_preserves
      (fun sts => (∀ s ∈ sts, statusWF s) ∧ (sts.map Status.name).Nodup)
      (fun sts n => bump_matching (apply_status sts n cat) n)
      (fun sts n hp =>
        ⟨bump_wf _ n (apply_status_wf cat hcat sts n hp.1)
            (apply_status_matching_le cat hcat sts n hp.2 hp.1),
          by rw [bump_names]; exact apply_status_nodup cat sts n hp.2⟩)
      names l ⟨hwf, hnd⟩
    exact h.1

/-- Closed instance: the self-applied default status satisfies the relaxed
invariant (duration 4 = max_duration + 1), and the end-of-turn tick of a
fresh status restores the strict bound. -/
theorem c1_status_invariant_witness :
    statusWF hasteSelfStatus ∧
    statusWF (Status.reduce_duration freshHaste) ∧
    (Status.reduce_duration freshHaste).duration
      ≤ (Status.reduce_duration freshHaste).max_duration := by
  have hsane : ∀ m, saneDef (defaultCat m) := fun _ => by
    unfold saneDef defaultCat defaultStatusDef
    norm_num
  have hfwf : ∀ s ∈ [freshHaste], statusWF s := by
    intro s hs
    rw [List.mem_singleton.mp hs]
    unfold statusWF freshHaste Status.mk_from_def defaultStatusDef
    norm_num
  have h := c1_status_invariant defaultCat hsane []
    ["Haste"] (fun s hs => absurd hs (List.not_mem_nil s)) (by simp)
  have h2 := c1_status_invariant defaultCat hsane [freshHaste] [] hfwf
    (by simp)
  have h3 := h2.2.2 (Status.reduce_duration freshHaste) (by decide)
  exact ⟨h.2.1 hasteSelfStatus (by decide), h3.1, h3.2⟩
